import Mathlib

/-!
Verification of the order lifecycle and synchronization engine of the
XML-server repository (src/server.js).

The server keeps an in-memory state with three components: a list of active
orders, a list of archived orders (newest first in both), and an operator
roster.  Socket handlers mutate this state: create_order, submit_measurement,
reset_state, update_operators.  loadData reconciles the persisted document at
startup; saveData rewrites the whole document.

The embedding below translates those handlers into pure Lean functions over
explicit state.  Persistence is modelled by a Store value: missing file,
unreadable or malformed file (any exception caught by loadData), or a
well-formed document (the parsed record).  JavaScript falsiness of optional
string fields (undefined or empty string) is modelled by jsOr over
Option String.
-/

/-- One measurement result entry; submit_measurement only consults its
status field (results.every with r.status). -/
structure MResult where
  status : String
  deriving Repr, DecidableEq

/-- An order object as stored in activeOrders or archivedOrders.  Fields the
handlers never touch are omitted; optional fields are Option-valued
(none models an absent / undefined property). -/
structure Order where
  id : String
  articleNumber : String
  drawingNumber : Option String
  status : Option String
  results : Option (List MResult)
  controller : Option String
  serialNumber : Option String
  completedAt : Option Nat
  xml : Option String
  deriving Repr, DecidableEq

/-- The in-memory server state: let state = activeOrders, archivedOrders,
operators (server.js lines 33-37). -/
structure ServerState where
  activeOrders : List Order
  archivedOrders : List Order
  operators : List String
  deriving Repr, DecidableEq

/-- JavaScript a-or-b on an optional string: undefined and the empty string
are falsy, so both fall through to the default. -/
def jsOr (o : Option String) (d : String) : String :=
  match o with
  | none => d
  | some s => if s = "" then d else s

/-- Payload of a create_order event: an order object whose id may be absent
(the handler fills it in from the clock). -/
structure OrderPayload where
  id : Option String
  articleNumber : String
  drawingNumber : Option String
  status : Option String
  results : Option (List MResult)
  controller : Option String
  serialNumber : Option String
  completedAt : Option Nat
  xml : Option String
  deriving Repr, DecidableEq

/-- if (!order.id) order.id = O-Date.now() (server.js line 120): the ensured
id of an incoming order, given the clock reading now. -/
def ensuredId (now : Nat) (p : OrderPayload) : String :=
  jsOr p.id ("O-" ++ toString now)

/-- The order object after the id fail-safe of the create_order handler. -/
def ensureId (now : Nat) (p : OrderPayload) : Order :=
  { id := ensuredId now p
    articleNumber := p.articleNumber
    drawingNumber := p.drawingNumber
    status := p.status
    results := p.results
    controller := p.controller
    serialNumber := p.serialNumber
    completedAt := p.completedAt
    xml := p.xml }

/-- create_order handler (server.js lines 116-138): ensure the id, drop the
event if the id exists in either the active or the archived list, otherwise
unshift onto activeOrders. -/
def createOrder (now : Nat) (p : OrderPayload) (s : ServerState) : ServerState :=
  let order := ensureId now p
  let existsActive := s.activeOrders.any (fun o => o.id == order.id)
  let existsArchive := s.archivedOrders.any (fun o => o.id == order.id)
  if existsActive || existsArchive then s
  else { s with activeOrders := order :: s.activeOrders }

/-- Payload of a submit_measurement event: id, results, controller, xml
(server.js line 142). -/
structure SubmitPayload where
  id : String
  results : List MResult
  controller : Option String
  xml : Option String
  deriving Repr, DecidableEq

/-- Number.toString padded with padStart(3, zero) as in the serial number
format (server.js line 157). -/
def pad3 (n : Nat) : String :=
  let s := toString n
  if s.length < 3 then String.mk (List.replicate (3 - s.length) '0') ++ s else s

/-- submit_measurement handler (server.js lines 141-182).  findIndex on the
active list by id, at index -1 drop the event; otherwise count archived
orders with the same drawingNumber, mint the serial number
M-drawing-count (drawing falling back to GEN when falsy), build the
completed order (status OK when every result entry has status OK, else
FAIL, overriding the intermediate COMPLETED), splice the order out of
activeOrders and unshift the completed order onto archivedOrders.
findIndex followed by splice at that index is rendered as find? for the
element and eraseP for the removal of the first match. -/
def submitMeasurement (now : Nat) (p : SubmitPayload) (s : ServerState) : ServerState :=
  match s.activeOrders.find? (fun o => o.id == p.id) with
  | none => s
  | some order =>
    let existingCount :=
      (s.archivedOrders.filter (fun o => o.drawingNumber == order.drawingNumber)).length
    let serial := "M-" ++ jsOr order.drawingNumber "GEN" ++ "-" ++ pad3 (existingCount + 1)
    let isOk := p.results.all (fun r => r.status == "OK")
    let completedOrder : Order :=
      { order with
        status := some (if isOk then "OK" else "FAIL")
        completedAt := some now
        results := some p.results
        controller := p.controller
        serialNumber := some serial
        xml := p.xml }
    { s with
      activeOrders := s.activeOrders.eraseP (fun o => o.id == p.id)
      archivedOrders := completedOrder :: s.archivedOrders }

/-- Default operator roster (server.js lines 36 and 72 and 91). -/
def defaultOperators : List String := ["Niklas Jalvemyr", "Olle Ljungberg"]

/-- The state the process starts with before loadData runs (server.js
lines 33-37). -/
def initialState : ServerState :=
  { activeOrders := [], archivedOrders := [], operators := defaultOperators }

/-- The parsed persisted document: both order lists, and the operators field
which may be absent or malformed (modelled none). -/
structure RawState where
  activeOrders : List Order
  archivedOrders : List Order
  operators : Option (List String)
  deriving Repr, DecidableEq

/-- The persisted store as loadData sees it: no file, a file whose read or
parse throws (any exception reaching the catch), or a well-formed
document. -/
inductive Store where
  | missing : Store
  | corrupt : Store
  | good : RawState → Store
  deriving Repr, DecidableEq

/-- JSON.stringify of the in-memory state: what saveData persists
(server.js lines 96-103). -/
def toRawState (s : ServerState) : RawState :=
  { activeOrders := s.activeOrders
    archivedOrders := s.archivedOrders
    operators := some s.operators }

/-- The dedup loops of loadData (server.js lines 48-64): walk the list,
keep the first occurrence of each id, tracking seen ids. -/
def dedupById : List Order → List String → List Order
  | [], _ => []
  | o :: rest, seen =>
    if seen.contains o.id then dedupById rest seen
    else o :: dedupById rest (o.id :: seen)

/-- The cleanup section of loadData on a well-formed document (server.js
lines 47-82): dedup both lists by id keeping first occurrences, remove from
the deduplicated active list every id present among the archived ids
(archive wins), default the operators when absent or malformed, and report
whether saveData was called - which the code decides by comparing the
filtered active length with the deduplicated active length (and the
archived list with itself). -/
def reconcile (raw : RawState) : ServerState × Bool :=
  let uniqueActive := dedupById raw.activeOrders []
  let uniqueArchive := dedupById raw.archivedOrders []
  let archiveIds := raw.archivedOrders.map (fun o => o.id)
  let newActive := uniqueActive.filter (fun o => !(archiveIds.contains o.id))
  let ops := match raw.operators with
    | none => defaultOperators
    | some l => l
  let saved := (newActive.length != uniqueActive.length)
            || (uniqueArchive.length != uniqueArchive.length)
  ({ activeOrders := newActive, archivedOrders := uniqueArchive, operators := ops }, saved)

/-- loadData (server.js lines 41-93) over the modelled store: no file keeps
the fresh initial state; an exception (unreadable or malformed document)
falls back to the empty state with the default roster, without writing; a
well-formed document is reconciled, and the cleaned state is persisted
exactly when the code called saveData. -/
def loadData : Store → ServerState × Store
  | Store.missing => (initialState, Store.missing)
  | Store.corrupt =>
    ({ activeOrders := [], archivedOrders := [], operators := defaultOperators }, Store.corrupt)
  | Store.good raw =>
    let r := reconcile raw
    if r.2 then (r.1, Store.good (toRawState r.1)) else (r.1, Store.good raw)

/-- reset_state handler (server.js lines 185-191): clear both order lists,
keep the operators, persist. -/
def resetAll (s : ServerState) : ServerState × Store :=
  let s2 := { s with activeOrders := [], archivedOrders := [] }
  (s2, Store.good (toRawState s2))

/-- update_operators handler (server.js lines 198-203): replace the roster
wholesale, persist. -/
def updateOperators (l : List String) (s : ServerState) : ServerState × Store :=
  let s2 := { s with operators := l }
  (s2, Store.good (toRawState s2))

/-- The ids of the active list. -/
def activeIds (s : ServerState) : List String := s.activeOrders.map (fun o => o.id)

/-- The ids of the archived list. -/
def archIds (s : ServerState) : List String := s.archivedOrders.map (fun o => o.id)

/-- The whole-state invariant: no duplicate ids inside a list, and no id in
both lists. -/
def StateInv (s : ServerState) : Prop :=
  (activeIds s).Nodup ∧ (archIds s).Nodup ∧ ∀ i ∈ activeIds s, i ∉ archIds s

/-- An id is present somewhere in the order set. -/
def idIn (s : ServerState) (i : String) : Prop := i ∈ activeIds s ∨ i ∈ archIds s

/-- One inbound mutation of the order set, with its clock reading. -/
inductive Op where
  | create : Nat → OrderPayload → Op
  | submit : Nat → SubmitPayload → Op
  deriving Repr, DecidableEq

/-- Dispatch of one event to its handler. -/
def step : Op → ServerState → ServerState
  | Op.create now p, s => createOrder now p s
  | Op.submit now p, s => submitMeasurement now p s

/-- Run a sequence of events left to right. -/
def run (ops : List Op) (s : ServerState) : ServerState :=
  ops.foldl (fun t op => step op t) s

/-- The ensured ids of the create events of a trace. -/
def createdIds : List Op → List String
  | [] => []
  | Op.create now p :: rest => ensuredId now p :: createdIds rest
  | Op.submit _ _ :: rest => createdIds rest

/-- Archived orders whose drawingNumber strictly equals d (the filter of
server.js line 156). -/
def archCount (d : Option String) (s : ServerState) : Nat :=
  (s.archivedOrders.filter (fun o => o.drawingNumber == d)).length

/-- The completed order that submit_measurement builds from the found active
order (server.js lines 154-172): serial number from the archived count for
the same drawingNumber, final status OK exactly when every result entry has
status OK. -/
def completeOrder (now : Nat) (p : SubmitPayload) (s : ServerState) (order : Order) : Order :=
  { order with
    status := some (if p.results.all (fun r => r.status == "OK") then "OK" else "FAIL")
    completedAt := some now
    results := some p.results
    controller := p.controller
    serialNumber := some ("M-" ++ jsOr order.drawingNumber "GEN" ++ "-" ++
      pad3 ((s.archivedOrders.filter
        (fun o => o.drawingNumber == order.drawingNumber)).length + 1))
    xml := p.xml }

/-- Occurrences of an id across both partitions (used to state the
idempotence of create_order). -/
def countAll (s : ServerState) (i : String) : Nat :=
  (s.activeOrders.filter (fun o => o.id == i)).length +
  (s.archivedOrders.filter (fun o => o.id == i)).length

/-! ### Concrete fixtures used by witnesses and counterexamples -/

/-- A minimal order with a given id and drawingNumber. -/
def mkOrder (i : String) (d : Option String) : Order :=
  { id := i, articleNumber := "ART-9", drawingNumber := d, status := none
    results := none, controller := none, serialNumber := none
    completedAt := none, xml := none }

/-- A create_order payload carrying id A. -/
def payloadA : OrderPayload :=
  { id := some "A", articleNumber := "ART-9", drawingNumber := some "D-1"
    status := none, results := none, controller := none, serialNumber := none
    completedAt := none, xml := none }

/-- A submit_measurement payload for id A with one passing result. -/
def submitA : SubmitPayload :=
  { id := "A", results := [{ status := "OK" }], controller := some "Niklas Jalvemyr"
    xml := none }

/-- A small state with one active and one archived order. -/
def sampleState : ServerState :=
  { activeOrders := [mkOrder "A" (some "D-1")]
    archivedOrders := [mkOrder "B" (some "D-1")]
    operators := defaultOperators }

/-- A raw document whose active list holds the same id twice and whose
archive is empty: deduplication shrinks it but no cross-partition conflict
exists. -/
def rawDupA : RawState :=
  { activeOrders := [mkOrder "A" none, mkOrder "A" none]
    archivedOrders := []
    operators := some defaultOperators }

/-- The raw document of the reconciler scenario in the spec: active A, A, B
and archived B. -/
def rawSpecExample : RawState :=
  { activeOrders := [mkOrder "A" none, mkOrder "A" none, mkOrder "B" none]
    archivedOrders := [mkOrder "B" none]
    operators := some defaultOperators }

/-! ### Helper lemmas -/

theorem loadData_good_fst (raw : RawState) :
    (loadData (Store.good raw)).1 = (reconcile raw).1 := by
  unfold loadData
  cases h : (reconcile raw).2 <;> simp [h]

/-! ### Theorems for the reviewed claims -/

/-- C10: resetAll clears both order partitions but leaves the operator
roster exactly as it was before the call. -/
theorem spec_c10_reset_keeps_roster (s : ServerState) :
    (resetAll s).1.operators = s.operators ∧
    (resetAll s).1.activeOrders = [] ∧
    (resetAll s).1.archivedOrders = [] :=
  ⟨rfl, rfl, rfl⟩

/-- C8: resetAll empties both partitions and persists that state, so loading
the persisted store afterwards again yields empty active and archived
partitions. -/
theorem spec_c8_reset_then_load (s : ServerState) :
    (resetAll s).1.activeOrders = [] ∧
    (resetAll s).1.archivedOrders = [] ∧
    (loadData (resetAll s).2).1.activeOrders = [] ∧
    (loadData (resetAll s).2).1.archivedOrders = [] := by
  refine ⟨rfl, rfl, ?_, ?_⟩ <;>
    simp [resetAll, loadData_good_fst, reconcile, toRawState, dedupById]

/-- C9: updateOperators replaces the roster wholesale (both order partitions
untouched) and persists it, so a subsequent load returns the new roster; the
empty roster is accepted like any other and becomes the stored roster. -/
theorem spec_c9_update_operators (l : List String) (s : ServerState) :
    (updateOperators l s).1.operators = l ∧
    (updateOperators l s).1.activeOrders = s.activeOrders ∧
    (updateOperators l s).1.archivedOrders = s.archivedOrders ∧
    (loadData (updateOperators l s).2).1.operators = l ∧
    (updateOperators [] s).1.operators = [] := by
  refine ⟨rfl, rfl, rfl, ?_, rfl⟩
  simp [updateOperators, loadData_good_fst, reconcile, toRawState]

/-- C7 counterexample: on a corrupt (unreadable or malformed) store, loadData
falls back to the empty state but performs no write at all: the store is
returned unchanged and in particular is not rewritten with the fallback
state, contrary to the immediate self-healing rewrite the claim asserts. -/
theorem spec_c7_corrupt_no_rewrite :
    (loadData Store.corrupt).2 = Store.corrupt ∧
    (loadData Store.corrupt).2 ≠ Store.good (toRawState (loadData Store.corrupt).1) :=
  ⟨rfl, by decide⟩

/-- C7 amended: if the persisted document is missing or malformed, startup
never aborts: loadData yields the empty order set with the non-empty default
operator roster; in both failure cases the store is left untouched (no
self-healing rewrite happens for a corrupt document). -/
theorem spec_c7_load_failure :
    (loadData Store.corrupt).1 =
      { activeOrders := [], archivedOrders := [], operators := defaultOperators } ∧
    (loadData Store.missing).1 = initialState ∧
    defaultOperators ≠ [] ∧
    (loadData Store.corrupt).2 = Store.corrupt ∧
    (loadData Store.missing).2 = Store.missing :=
  ⟨rfl, rfl, by decide, rfl, rfl⟩

theorem ensureId_id (n : Nat) (p : OrderPayload) (i : String)
    (hid : p.id = some i) (hne : i ≠ "") : (ensureId n p).id = i := by
  show ensuredId n p = i
  simp [ensuredId, jsOr, hid, hne]

theorem createOrder_of_mem (now : Nat) (p : OrderPayload) (s : ServerState)
    (h : (ensureId now p).id ∈ activeIds s ∨ (ensureId now p).id ∈ archIds s) :
    createOrder now p s = s := by
  unfold createOrder
  rcases h with h | h
  · have hc : s.activeOrders.any (fun o => o.id == (ensureId now p).id) = true := by
      rw [List.any_eq_true]
      rcases List.mem_map.1 h with ⟨o, ho, hoid⟩
      exact ⟨o, ho, by rw [beq_iff_eq]; exact hoid⟩
    simp [hc]
  · have hc : s.archivedOrders.any (fun o => o.id == (ensureId now p).id) = true := by
      rw [List.any_eq_true]
      rcases List.mem_map.1 h with ⟨o, ho, hoid⟩
      exact ⟨o, ho, by rw [beq_iff_eq]; exact hoid⟩
    simp [hc]

theorem createOrder_of_not_mem (now : Nat) (p : OrderPayload) (s : ServerState)
    (h1 : (ensureId now p).id ∉ activeIds s) (h2 : (ensureId now p).id ∉ archIds s) :
    createOrder now p s = { s with activeOrders := ensureId now p :: s.activeOrders } := by
  unfold createOrder
  have ha : s.activeOrders.any (fun o => o.id == (ensureId now p).id) = false := by
    rw [List.any_eq_false]
    intro o ho
    simp only [beq_iff_eq]
    intro heq
    exact h1 (List.mem_map.2 ⟨o, ho, heq⟩)
  have hb : s.archivedOrders.any (fun o => o.id == (ensureId now p).id) = false := by
    rw [List.any_eq_false]
    intro o ho
    simp only [beq_iff_eq]
    intro heq
    exact h2 (List.mem_map.2 ⟨o, ho, heq⟩)
  simp [ha, hb]

/-- C2: create_order with an id that already exists in either partition is a
no-op on the state, and creating the same id twice from a state without that
id stores exactly one order carrying it. -/
theorem spec_c2_create_idempotent (now1 now2 : Nat) (p : OrderPayload)
    (s : ServerState) (i : String) (hid : p.id = some i) (hne : i ≠ "") :
    ((i ∈ activeIds s ∨ i ∈ archIds s) → createOrder now1 p s = s) ∧
    (countAll s i = 0 →
      countAll (createOrder now2 p (createOrder now1 p s)) i = 1) := by
  have hi : ∀ n, (ensureId n p).id = i := fun n => ensureId_id n p i hid hne
  constructor
  · intro hmem
    exact createOrder_of_mem now1 p s (by rw [hi now1]; exact hmem)
  · intro hcount
    have ha0 : (s.activeOrders.filter (fun o => o.id == i)).length = 0 := by
      unfold countAll at hcount; omega
    have hb0 : (s.archivedOrders.filter (fun o => o.id == i)).length = 0 := by
      unfold countAll at hcount; omega
    have hact : ∀ o ∈ s.activeOrders, ¬ o.id = i := by
      intro o ho heq
      have hmem : o ∈ s.activeOrders.filter (fun o => o.id == i) :=
        List.mem_filter.2 ⟨ho, by rw [beq_iff_eq]; exact heq⟩
      rw [List.length_eq_zero.1 ha0] at hmem
      exact (List.not_mem_nil o) hmem
    have harch : ∀ o ∈ s.archivedOrders, ¬ o.id = i := by
      intro o ho heq
      have hmem : o ∈ s.archivedOrders.filter (fun o => o.id == i) :=
        List.mem_filter.2 ⟨ho, by rw [beq_iff_eq]; exact heq⟩
      rw [List.length_eq_zero.1 hb0] at hmem
      exact (List.not_mem_nil o) hmem
    have hnot1 : (ensureId now1 p).id ∉ activeIds s := by
      rw [hi now1]
      intro hmem
      rcases List.mem_map.1 hmem with ⟨o, ho, hoid⟩
      exact hact o ho hoid
    have hnot2 : (ensureId now1 p).id ∉ archIds s := by
      rw [hi now1]
      intro hmem
      rcases List.mem_map.1 hmem with ⟨o, ho, hoid⟩
      exact harch o ho hoid
    have hstep1 := createOrder_of_not_mem now1 p s hnot1 hnot2
    have hstep2 : createOrder now2 p (createOrder now1 p s) = createOrder now1 p s := by
      apply createOrder_of_mem
      left
      rw [hstep1]
      show (ensureId now2 p).id ∈ (ensureId now1 p :: s.activeOrders).map (fun o => o.id)
      simp [hi now1, hi now2]
    rw [hstep2, hstep1]
    unfold countAll
    show (List.filter (fun o => o.id == i) (ensureId now1 p :: s.activeOrders)).length +
        (List.filter (fun o => o.id == i) s.archivedOrders).length = 1
    rw [List.filter_cons_of_pos (by simp [hi now1])]
    simp only [List.length_cons]
    omega

theorem spec_c2_create_idempotent_witness :
    payloadA.id = some "A" ∧ ("A" : String) ≠ "" ∧ countAll initialState "A" = 0 ∧
    countAll (createOrder 2 payloadA (createOrder 1 payloadA initialState)) "A" = 1 :=
  ⟨rfl, by decide, by decide,
    (spec_c2_create_idempotent 1 2 payloadA initialState "A" rfl (by decide)).2 (by decide)⟩

theorem submitMeasurement_of_none (now : Nat) (p : SubmitPayload) (s : ServerState)
    (h : s.activeOrders.find? (fun o => o.id == p.id) = none) :
    submitMeasurement now p s = s := by
  unfold submitMeasurement
  rw [h]

theorem submitMeasurement_of_some (now : Nat) (p : SubmitPayload) (s : ServerState)
    (o : Order) (h : s.activeOrders.find? (fun x => x.id == p.id) = some o) :
    submitMeasurement now p s =
      { s with
        activeOrders := s.activeOrders.eraseP (fun x => x.id == p.id)
        archivedOrders := completeOrder now p s o :: s.archivedOrders } := by
  unfold submitMeasurement
  rw [h]
  rfl

theorem find?_id_eq_none_iff (l : List Order) (i : String) :
    l.find? (fun o => o.id == i) = none ↔ i ∉ l.map (fun o => o.id) := by
  rw [List.find?_eq_none]
  constructor
  · intro h hmem
    rcases List.mem_map.1 hmem with ⟨o, ho, hoid⟩
    exact h o ho (by rw [beq_iff_eq]; exact hoid)
  · intro h o ho hbeq
    exact h (List.mem_map.2 ⟨o, ho, beq_iff_eq.1 hbeq⟩)

/-- C4: when a submit_measurement for a present id goes through, the archived
order ends with status OK exactly when every result entry has status OK, and
with status FAIL otherwise; an empty results list therefore yields OK. -/
theorem spec_c4_verdict (now : Nat) (p : SubmitPayload) (s : ServerState)
    (h : p.id ∈ activeIds s) :
    ∃ c rest, (submitMeasurement now p s).archivedOrders = c :: rest ∧
      (c.status = some "OK" ↔ ∀ r ∈ p.results, r.status = "OK") ∧
      ((¬ ∀ r ∈ p.results, r.status = "OK") → c.status = some "FAIL") ∧
      (p.results = [] → c.status = some "OK") := by
  have hne : s.activeOrders.find? (fun o => o.id == p.id) ≠ none := by
    intro hnone
    exact (find?_id_eq_none_iff s.activeOrders p.id).1 hnone h
  rcases Option.ne_none_iff_exists'.1 hne with ⟨o, ho⟩
  refine ⟨completeOrder now p s o, s.archivedOrders, ?_, ?_, ?_, ?_⟩
  · rw [submitMeasurement_of_some now p s o ho]
  · have hcs : (completeOrder now p s o).status =
        some (if p.results.all (fun r => r.status == "OK") then "OK" else "FAIL") := rfl
    rw [hcs]
    by_cases hb : p.results.all (fun r => r.status == "OK") = true
    · rw [if_pos hb]
      simp only [List.all_eq_true, beq_iff_eq] at hb
      exact ⟨fun _ => hb, fun _ => rfl⟩
    · rw [if_neg hb]
      constructor
      · intro hcontra
        exact absurd hcontra (by simp)
      · intro hall
        exfalso
        apply hb
        rw [List.all_eq_true]
        intro r hr
        rw [beq_iff_eq]
        exact hall r hr
  · intro hnot
    have hcs : (completeOrder now p s o).status =
        some (if p.results.all (fun r => r.status == "OK") then "OK" else "FAIL") := rfl
    rw [hcs, if_neg]
    intro hb
    apply hnot
    rw [List.all_eq_true] at hb
    intro r hr
    exact beq_iff_eq.1 (hb r hr)
  · intro he
    have hcs : (completeOrder now p s o).status =
        some (if p.results.all (fun r => r.status == "OK") then "OK" else "FAIL") := rfl
    rw [hcs, he]
    rfl

theorem spec_c4_verdict_witness :
    submitA.id ∈ activeIds sampleState ∧
    (∃ c rest, (submitMeasurement 7 submitA sampleState).archivedOrders = c :: rest ∧
      (c.status = some "OK" ↔ ∀ r ∈ submitA.results, r.status = "OK") ∧
      ((¬ ∀ r ∈ submitA.results, r.status = "OK") → c.status = some "FAIL") ∧
      (submitA.results = [] → c.status = some "OK")) :=
  ⟨by decide, spec_c4_verdict 7 submitA sampleState (by decide)⟩

theorem createOrder_archived (now : Nat) (p : OrderPayload) (s : ServerState) :
    (createOrder now p s).archivedOrders = s.archivedOrders := by
  by_cases hmem : (ensureId now p).id ∈ activeIds s ∨ (ensureId now p).id ∈ archIds s
  · rw [createOrder_of_mem now p s hmem]
  · push_neg at hmem
    rw [createOrder_of_not_mem now p s hmem.1 hmem.2]

theorem archCount_step_mono (d : Option String) (op : Op) (s : ServerState) :
    archCount d s ≤ archCount d (step op s) := by
  cases op with
  | create now p =>
    show archCount d s ≤ archCount d (createOrder now p s)
    unfold archCount
    rw [createOrder_archived]
  | submit now p =>
    show archCount d s ≤ archCount d (submitMeasurement now p s)
    cases hf : s.activeOrders.find? (fun x => x.id == p.id) with
    | none => rw [submitMeasurement_of_none now p s hf]
    | some o =>
      rw [submitMeasurement_of_some now p s o hf]
      unfold archCount
      show (List.filter (fun x => x.drawingNumber == d) s.archivedOrders).length ≤
        (List.filter (fun x => x.drawingNumber == d)
          (completeOrder now p s o :: s.archivedOrders)).length
      rw [List.filter_cons]
      by_cases hq : ((completeOrder now p s o).drawingNumber == d) = true
      · rw [if_pos hq]
        exact Nat.le_succ _
      · rw [if_neg hq]

theorem archCount_run_mono (d : Option String) (ops : List Op) (s : ServerState) :
    archCount d s ≤ archCount d (run ops s) := by
  induction ops generalizing s with
  | nil => exact le_refl _
  | cons op rest ih =>
    show archCount d s ≤ archCount d (run rest (step op s))
    exact le_trans (archCount_step_mono d op s) (ih (step op s))

/-- C5: a successful submit_measurement mints the serial
M-drawing-count, where drawing is the drawingNumber of the archived
order (the token GEN substituted when it is absent or empty) and count is one
plus the number of already archived orders with the same drawingNumber,
zero padded to three digits (so the first serial for a drawing ends in 001);
the archived count for that drawing then grows by exactly one and never
decreases under further create or submit events, so the counts minted for a
fixed drawing by successive submissions are strictly increasing. -/
theorem spec_c5_serial (now : Nat) (p : SubmitPayload) (s : ServerState) (o : Order)
    (h : s.activeOrders.find? (fun x => x.id == p.id) = some o) :
    ∃ c rest, (submitMeasurement now p s).archivedOrders = c :: rest ∧
      c.serialNumber = some ("M-" ++ jsOr o.drawingNumber "GEN" ++ "-" ++
        pad3 (archCount o.drawingNumber s + 1)) ∧
      c.drawingNumber = o.drawingNumber ∧
      pad3 1 = "001" ∧
      archCount o.drawingNumber (submitMeasurement now p s) = archCount o.drawingNumber s + 1 ∧
      (∀ ops : List Op, archCount o.drawingNumber s + 1 ≤
        archCount o.drawingNumber (run ops (submitMeasurement now p s))) := by
  have hinc : archCount o.drawingNumber (submitMeasurement now p s) =
      archCount o.drawingNumber s + 1 := by
    rw [submitMeasurement_of_some now p s o h]
    unfold archCount
    show (List.filter (fun x => x.drawingNumber == o.drawingNumber)
        (completeOrder now p s o :: s.archivedOrders)).length = _
    have hq : ((completeOrder now p s o).drawingNumber == o.drawingNumber) = true :=
      beq_self_eq_true o.drawingNumber
    rw [List.filter_cons, if_pos hq]
    rfl
  refine ⟨completeOrder now p s o, s.archivedOrders, ?_, rfl, rfl, by decide, hinc, ?_⟩
  · rw [submitMeasurement_of_some now p s o h]
  · intro ops
    rw [← hinc]
    exact archCount_run_mono o.drawingNumber ops (submitMeasurement now p s)

theorem spec_c5_serial_witness :
    sampleState.activeOrders.find? (fun x => x.id == submitA.id) =
      some (mkOrder "A" (some "D-1")) ∧
    (∃ c rest, (submitMeasurement 7 submitA sampleState).archivedOrders = c :: rest ∧
      c.serialNumber = some ("M-" ++ jsOr (mkOrder "A" (some "D-1")).drawingNumber "GEN" ++
        "-" ++ pad3 (archCount (mkOrder "A" (some "D-1")).drawingNumber sampleState + 1)) ∧
      c.drawingNumber = (mkOrder "A" (some "D-1")).drawingNumber ∧
      pad3 1 = "001" ∧
      archCount (mkOrder "A" (some "D-1")).drawingNumber (submitMeasurement 7 submitA sampleState) =
        archCount (mkOrder "A" (some "D-1")).drawingNumber sampleState + 1 ∧
      (∀ ops : List Op, archCount (mkOrder "A" (some "D-1")).drawingNumber sampleState + 1 ≤
        archCount (mkOrder "A" (some "D-1")).drawingNumber
          (run ops (submitMeasurement 7 submitA sampleState)))) :=
  ⟨by decide, spec_c5_serial 7 submitA sampleState (mkOrder "A" (some "D-1")) (by decide)⟩

theorem map_id_eraseP (l : List Order) (i : String) :
    (l.eraseP (fun o => o.id == i)).map (fun o => o.id) =
      (l.map (fun o => o.id)).eraseP (fun x => x == i) := by
  induction l with
  | nil => rfl
  | cons o rest ih =>
    by_cases h : (o.id == i) = true
    · simp [List.eraseP_cons, h]
    · simp only [List.eraseP_cons, List.map_cons, h, cond_false, List.map]
      rw [ih]

theorem not_mem_eraseP_beq_of_nodup (L : List String) (i : String) (h : L.Nodup) :
    i ∉ L.eraseP (fun x => x == i) := by
  induction L with
  | nil => simp
  | cons a rest ih =>
    rw [List.eraseP_cons]
    by_cases ha : (a == i) = true
    · simp only [ha, cond_true]
      have hai : a = i := beq_iff_eq.1 ha
      intro hmem
      exact (List.nodup_cons.1 h).1 (hai ▸ hmem)
    · simp only [ha, cond_false]
      intro hmem
      rcases List.mem_cons.1 hmem with heq | hmem2
      · exact ha (by rw [beq_iff_eq]; exact heq.symm)
      · exact ih (List.nodup_cons.1 h).2 hmem2

theorem mem_eraseP_beq_of_ne (L : List String) (i j : String) (hne : j ≠ i)
    (hj : j ∈ L) : j ∈ L.eraseP (fun x => x == i) := by
  induction L with
  | nil => cases hj
  | cons a rest ih =>
    rw [List.eraseP_cons]
    by_cases ha : (a == i) = true
    · simp only [ha, cond_true]
      rcases List.mem_cons.1 hj with heq | h2
      · exact absurd (heq.trans (beq_iff_eq.1 ha)) hne
      · exact h2
    · simp only [ha, cond_false]
      rcases List.mem_cons.1 hj with heq | h2
      · rw [heq]; exact List.mem_cons_self _ _
      · exact List.mem_cons.2 (Or.inr (ih h2))

/-- C3: submit_measurement for an id that is not in the active list leaves
the state unchanged, and (from a state whose active ids are duplicate-free,
as every reconciled or reachable state is) a repeated submission for the
same id is always a no-op: the order leaves the active list at most once. -/
theorem spec_c3_submit_once (now now2 : Nat) (p p2 : SubmitPayload)
    (s : ServerState) (hinv : (activeIds s).Nodup) (hid : p2.id = p.id) :
    (p.id ∉ activeIds s → submitMeasurement now p s = s) ∧
    submitMeasurement now2 p2 (submitMeasurement now p s) = submitMeasurement now p s := by
  have hdrop : ∀ (n : Nat) (q : SubmitPayload) (t : ServerState),
      q.id ∉ activeIds t → submitMeasurement n q t = t := by
    intro n q t hnot
    exact submitMeasurement_of_none n q t ((find?_id_eq_none_iff t.activeOrders q.id).2 hnot)
  constructor
  · exact hdrop now p s
  · by_cases hmem : p.id ∈ activeIds s
    · have hne : s.activeOrders.find? (fun o => o.id == p.id) ≠ none := by
        intro hnone
        exact (find?_id_eq_none_iff s.activeOrders p.id).1 hnone hmem
      rcases Option.ne_none_iff_exists'.1 hne with ⟨o, ho⟩
      apply hdrop
      rw [hid, submitMeasurement_of_some now p s o ho]
      show p.id ∉ (s.activeOrders.eraseP (fun x => x.id == p.id)).map (fun o => o.id)
      rw [map_id_eraseP]
      exact not_mem_eraseP_beq_of_nodup _ _ hinv
    · rw [hdrop now p s hmem]
      exact hdrop now2 p2 s (by rw [hid]; exact hmem)

theorem spec_c3_submit_once_witness :
    (activeIds sampleState).Nodup ∧
    submitMeasurement 2 submitA (submitMeasurement 1 submitA sampleState) =
      submitMeasurement 1 submitA sampleState :=
  ⟨by decide, (spec_c3_submit_once 1 2 submitA submitA sampleState (by decide) rfl).2⟩

theorem dedupById_cons (o : Order) (rest : List Order) (seen : List String) :
    dedupById (o :: rest) seen =
      if seen.contains o.id then dedupById rest seen
      else o :: dedupById rest (o.id :: seen) := rfl

theorem dedupById_sublist (l : List Order) (seen : List String) :
    (dedupById l seen).Sublist l := by
  induction l generalizing seen with
  | nil => exact List.Sublist.refl _
  | cons o rest ih =>
    by_cases h : seen.contains o.id = true
    · rw [dedupById_cons, if_pos h]
      exact (ih seen).cons o
    · rw [dedupById_cons, if_neg h]
      exact (ih (o.id :: seen)).cons₂ o

theorem mem_ids_dedupById (l : List Order) (seen : List String) (i : String) :
    (i ∈ (dedupById l seen).map (fun o => o.id)) ↔
      (i ∈ l.map (fun o => o.id) ∧ i ∉ seen) := by
  induction l generalizing seen with
  | nil => simp [dedupById]
  | cons o rest ih =>
    by_cases h : seen.contains o.id = true
    · rw [dedupById_cons, if_pos h]
      rw [ih]
      simp only [List.map_cons, List.mem_cons]
      constructor
      · rintro ⟨hm, hs⟩
        exact ⟨Or.inr hm, hs⟩
      · rintro ⟨hor, hs⟩
        rcases hor with heq | hm
        · exact absurd (heq ▸ List.elem_iff.1 h) hs
        · exact ⟨hm, hs⟩
    · rw [dedupById_cons, if_neg h]
      simp only [List.map_cons, List.mem_cons]
      rw [ih]
      constructor
      · rintro (heq | ⟨hm, hs⟩)
        · exact ⟨Or.inl heq, fun hc => h (List.elem_iff.2 (heq ▸ hc))⟩
        · exact ⟨Or.inr hm, fun hc => hs (List.mem_cons.2 (Or.inr hc))⟩
      · rintro ⟨heq | hm, hs⟩
        · exact Or.inl heq
        · by_cases hxo : i = o.id
          · exact Or.inl hxo
          · refine Or.inr ⟨hm, ?_⟩
            intro hc
            rcases List.mem_cons.1 hc with heq2 | hc2
            · exact hxo heq2
            · exact hs hc2

theorem nodup_ids_dedupById (l : List Order) (seen : List String) :
    ((dedupById l seen).map (fun o => o.id)).Nodup := by
  induction l generalizing seen with
  | nil => simp [dedupById]
  | cons o rest ih =>
    by_cases h : seen.contains o.id = true
    · rw [dedupById_cons, if_pos h]
      exact ih seen
    · rw [dedupById_cons, if_neg h]
      rw [List.map_cons]
      refine List.nodup_cons.2 ⟨?_, ih _⟩
      rw [mem_ids_dedupById]
      rintro ⟨_, hns⟩
      exact hns (List.mem_cons_self _ _)

theorem find?_dedupById (l : List Order) (seen : List String) (i : String)
    (hi : i ∉ seen) :
    (dedupById l seen).find? (fun o => o.id == i) = l.find? (fun o => o.id == i) := by
  induction l generalizing seen with
  | nil => rfl
  | cons o rest ih =>
    by_cases h : seen.contains o.id = true
    · rw [dedupById_cons, if_pos h]
      have hoi : (o.id == i) = false := by
        rw [beq_eq_false_iff_ne]
        intro heq
        exact hi (heq ▸ List.elem_iff.1 h)
      rw [ih seen hi]
      simp [List.find?_cons, hoi]
    · rw [dedupById_cons, if_neg h]
      by_cases hoi : (o.id == i) = true
      · simp [List.find?_cons, hoi]
      · simp only [List.find?_cons, hoi]
        refine ih _ ?_
        intro hc
        rcases List.mem_cons.1 hc with heq | hc2
        · exact hoi (by rw [beq_iff_eq]; exact heq.symm)
        · exact hi hc2

theorem find?_filter_agree (l : List Order) (q : Order → Bool) (i : String)
    (hq : ∀ o : Order, o.id = i → q o = true) :
    (l.filter q).find? (fun o => o.id == i) = l.find? (fun o => o.id == i) := by
  induction l with
  | nil => rfl
  | cons o rest ih =>
    rw [List.filter_cons]
    by_cases hqo : q o = true
    · rw [if_pos hqo]
      by_cases hoi : (o.id == i) = true
      · simp [List.find?_cons, hoi]
      · simp only [List.find?_cons, hoi]
        exact ih
    · rw [if_neg hqo]
      have hoi : (o.id == i) = false := by
        rw [beq_eq_false_iff_ne]
        intro heq
        exact hqo (hq o heq)
      simp only [List.find?_cons, hoi]
      exact ih

theorem length_filter_ne_iff (l : List Order) (q : Order → Bool) :
    (l.filter q).length ≠ l.length ↔ ∃ o ∈ l, q o = false := by
  induction l with
  | nil => simp
  | cons o rest ih =>
    rw [List.filter_cons]
    by_cases hq : q o = true
    · rw [if_pos hq]
      simp only [List.length_cons]
      constructor
      · intro h
        have h2 : (List.filter q rest).length ≠ rest.length := fun hc => h (by rw [hc])
        rcases ih.1 h2 with ⟨o2, hm, hf⟩
        exact ⟨o2, List.mem_cons.2 (Or.inr hm), hf⟩
      · rintro ⟨o2, hm, hf⟩ hlen
        have h2 : (List.filter q rest).length = rest.length := Nat.add_right_cancel hlen
        rcases List.mem_cons.1 hm with heq | h4
        · rw [heq, hq] at hf
          simp at hf
        · exact ih.2 ⟨o2, h4, hf⟩ h2
    · rw [if_neg hq]
      constructor
      · intro _
        refine ⟨o, List.mem_cons_self _ _, ?_⟩
        cases hqo : q o with
        | false => rfl
        | true => exact absurd hqo hq
      · intro _
        have hle := List.length_filter_le q rest
        simp only [List.length_cons]
        omega

theorem reconcile_fst_active (raw : RawState) :
    (reconcile raw).1.activeOrders =
      (dedupById raw.activeOrders []).filter
        (fun o => !((raw.archivedOrders.map (fun x => x.id)).contains o.id)) := rfl

theorem reconcile_fst_archived (raw : RawState) :
    (reconcile raw).1.archivedOrders = dedupById raw.archivedOrders [] := rfl

theorem reconcile_snd (raw : RawState) :
    (reconcile raw).2 =
      ((((dedupById raw.activeOrders []).filter
          (fun o => !((raw.archivedOrders.map (fun x => x.id)).contains o.id))).length
          != (dedupById raw.activeOrders []).length)
        || ((dedupById raw.archivedOrders []).length
          != (dedupById raw.archivedOrders []).length)) := rfl

theorem reconcile_StateInv (raw : RawState) : StateInv (reconcile raw).1 := by
  refine ⟨?_, ?_, ?_⟩
  · show ((reconcile raw).1.activeOrders.map (fun o => o.id)).Nodup
    rw [reconcile_fst_active]
    exact List.Nodup.sublist (List.Sublist.map _ (List.filter_sublist _))
      (nodup_ids_dedupById _ _)
  · show ((reconcile raw).1.archivedOrders.map (fun o => o.id)).Nodup
    rw [reconcile_fst_archived]
    exact nodup_ids_dedupById _ _
  · intro i hi hmem
    have hi' : i ∈ ((dedupById raw.activeOrders []).filter
        (fun o => !((raw.archivedOrders.map (fun x => x.id)).contains o.id))).map
          (fun o => o.id) := by
      have := hi
      unfold activeIds at this
      rw [reconcile_fst_active] at this
      exact this
    rcases List.mem_map.1 hi' with ⟨o, ho, hoid⟩
    have hof := (List.mem_filter.1 ho).2
    have hmem' : i ∈ (dedupById raw.archivedOrders []).map (fun o => o.id) := by
      have := hmem
      unfold archIds at this
      rw [reconcile_fst_archived] at this
      exact this
    have harchraw := ((mem_ids_dedupById _ _ _).1 hmem').1
    have hc : (raw.archivedOrders.map (fun x => x.id)).contains o.id = true :=
      List.elem_iff.2 (hoid ▸ harchraw)
    rw [hc] at hof
    simp at hof

/-- C6 counterexample: a raw document whose active list holds a duplicated id
and no archived conflict.  Reconciliation shrinks the active partition (its
size differs from the raw load), yet the cleanup is not persisted: the code
only saves when the archive-wins filter removed something, because it
compares the filtered list against the deduplicated list, not against the
raw load. -/
theorem spec_c6_dedup_not_saved :
    (reconcile rawDupA).1.activeOrders.length ≠ rawDupA.activeOrders.length ∧
    (reconcile rawDupA).2 = false := by decide

/-- C6 amended: reconciliation deduplicates each partition independently by
id keeping first occurrences (order preserved: the result lists are sublists
of the raw lists and the first raw occurrence is the representative kept),
applies archive-wins (an id stays active exactly when it is a raw active id
and not a raw archived id), restores the invariant, and persists the cleaned
result exactly when some raw active id also occurs among the raw archived
ids - dedup-only shrinkage is not persisted; the reconciler scenario of the
spec (active A, A, B and archived B) yields active A, archived B, and is
persisted. -/
theorem spec_c6_reconcile (raw : RawState) :
    StateInv (reconcile raw).1 ∧
    (reconcile raw).1.activeOrders.Sublist raw.activeOrders ∧
    (reconcile raw).1.archivedOrders.Sublist raw.archivedOrders ∧
    (∀ i, i ∈ activeIds (reconcile raw).1 ↔
      (i ∈ raw.activeOrders.map (fun o => o.id) ∧
        i ∉ raw.archivedOrders.map (fun o => o.id))) ∧
    (∀ i, i ∈ archIds (reconcile raw).1 ↔ i ∈ raw.archivedOrders.map (fun o => o.id)) ∧
    (∀ i, (reconcile raw).1.archivedOrders.find? (fun o => o.id == i) =
      raw.archivedOrders.find? (fun o => o.id == i)) ∧
    (∀ i, i ∉ raw.archivedOrders.map (fun o => o.id) →
      (reconcile raw).1.activeOrders.find? (fun o => o.id == i) =
        raw.activeOrders.find? (fun o => o.id == i)) ∧
    ((reconcile raw).2 = true ↔
      ∃ i, i ∈ raw.activeOrders.map (fun o => o.id) ∧
        i ∈ raw.archivedOrders.map (fun o => o.id)) ∧
    reconcile rawSpecExample =
      ({ activeOrders := [mkOrder "A" none], archivedOrders := [mkOrder "B" none],
          operators := defaultOperators }, true) := by
  refine ⟨reconcile_StateInv raw, ?_, ?_, ?_, ?_, ?_, ?_, ?_, by decide⟩
  · rw [reconcile_fst_active]
    exact (List.filter_sublist _).trans (dedupById_sublist _ _)
  · rw [reconcile_fst_archived]
    exact dedupById_sublist _ _
  · intro i
    constructor
    · intro hi
      have hi' : i ∈ ((dedupById raw.activeOrders []).filter
          (fun o => !((raw.archivedOrders.map (fun x => x.id)).contains o.id))).map
            (fun o => o.id) := by
        have := hi
        unfold activeIds at this
        rw [reconcile_fst_active] at this
        exact this
      rcases List.mem_map.1 hi' with ⟨o, ho, hoid⟩
      have hin := (List.mem_filter.1 ho).1
      have hof := (List.mem_filter.1 ho).2
      have hmem := ((mem_ids_dedupById _ _ _).1
        (List.mem_map.2 ⟨o, hin, hoid⟩)).1
      refine ⟨hmem, ?_⟩
      intro hc
      have : (raw.archivedOrders.map (fun x => x.id)).contains o.id = true :=
        List.elem_iff.2 (hoid ▸ hc)
      rw [this] at hof
      simp at hof
    · rintro ⟨hact, harch⟩
      have hdid : i ∈ (dedupById raw.activeOrders []).map (fun o => o.id) :=
        (mem_ids_dedupById _ _ _).2 ⟨hact, by simp⟩
      rcases List.mem_map.1 hdid with ⟨o, ho, hoid⟩
      have hq : (!((raw.archivedOrders.map (fun x => x.id)).contains o.id)) = true := by
        have : (raw.archivedOrders.map (fun x => x.id)).contains o.id = false := by
          cases hc : (raw.archivedOrders.map (fun x => x.id)).contains o.id with
          | false => rfl
          | true => exact absurd (hoid ▸ List.elem_iff.1 hc) harch
        rw [this]
        rfl
      show i ∈ (reconcile raw).1.activeOrders.map (fun o => o.id)
      rw [reconcile_fst_active]
      exact List.mem_map.2 ⟨o, List.mem_filter.2 ⟨ho, hq⟩, hoid⟩
  · intro i
    show i ∈ (reconcile raw).1.archivedOrders.map (fun o => o.id) ↔ _
    rw [reconcile_fst_archived, mem_ids_dedupById]
    simp
  · intro i
    rw [reconcile_fst_archived]
    exact find?_dedupById _ _ _ (by simp)
  · intro i hnot
    rw [reconcile_fst_active]
    rw [find?_filter_agree]
    · exact find?_dedupById _ _ _ (by simp)
    · intro o hoid
      have : (raw.archivedOrders.map (fun x => x.id)).contains o.id = false := by
        cases hc : (raw.archivedOrders.map (fun x => x.id)).contains o.id with
        | false => rfl
        | true => exact absurd (hoid ▸ List.elem_iff.1 hc) hnot
      rw [this]
      rfl
  · rw [reconcile_snd]
    rw [bne_self_eq_false, Bool.or_false]
    rw [bne_iff_ne]
    rw [length_filter_ne_iff]
    constructor
    · rintro ⟨o, ho, hof⟩
      refine ⟨o.id, ?_, ?_⟩
      · exact ((mem_ids_dedupById _ _ _).1 (List.mem_map.2 ⟨o, ho, rfl⟩)).1
      · have : (raw.archivedOrders.map (fun x => x.id)).contains o.id = true := by
          cases hc : (raw.archivedOrders.map (fun x => x.id)).contains o.id with
          | true => rfl
          | false => rw [hc] at hof; simp at hof
        exact List.elem_iff.1 this
    · rintro ⟨i, hact, harch⟩
      have hdid : i ∈ (dedupById raw.activeOrders []).map (fun o => o.id) :=
        (mem_ids_dedupById _ _ _).2 ⟨hact, by simp⟩
      rcases List.mem_map.1 hdid with ⟨o, ho, hoid⟩
      refine ⟨o, ho, ?_⟩
      have : (raw.archivedOrders.map (fun x => x.id)).contains o.id = true :=
        List.elem_iff.2 (hoid ▸ harch)
      rw [this]
      rfl

theorem spec_c6_reconcile_witness :
    ("A" ∉ rawSpecExample.archivedOrders.map (fun o => o.id)) ∧
    (reconcile rawSpecExample).1.activeOrders.find? (fun o => o.id == "A") =
      rawSpecExample.activeOrders.find? (fun o => o.id == "A") :=
  ⟨by decide, (spec_c6_reconcile rawSpecExample).2.2.2.2.2.2.1 "A" (by decide)⟩

theorem stateInv_create (now : Nat) (p : OrderPayload) (s : ServerState)
    (h : StateInv s) : StateInv (createOrder now p s) := by
  by_cases hmem : (ensureId now p).id ∈ activeIds s ∨ (ensureId now p).id ∈ archIds s
  · rw [createOrder_of_mem now p s hmem]
    exact h
  · push_neg at hmem
    rw [createOrder_of_not_mem now p s hmem.1 hmem.2]
    obtain ⟨h1, h2, h3⟩ := h
    refine ⟨?_, h2, ?_⟩
    · show ((ensureId now p :: s.activeOrders).map (fun o => o.id)).Nodup
      rw [List.map_cons]
      exact List.nodup_cons.2 ⟨hmem.1, h1⟩
    · intro i hi
      have h0 : i ∈ ((ensureId now p :: s.activeOrders).map (fun o => o.id)) := hi
      rw [List.map_cons] at h0
      show i ∉ archIds s
      rcases List.mem_cons.1 h0 with heq | hmem2
      · exact heq ▸ hmem.2
      · exact h3 i hmem2

theorem stateInv_submit (now : Nat) (p : SubmitPayload) (s : ServerState)
    (h : StateInv s) : StateInv (submitMeasurement now p s) := by
  cases hf : s.activeOrders.find? (fun x => x.id == p.id) with
  | none =>
    rw [submitMeasurement_of_none now p s hf]
    exact h
  | some o =>
    rw [submitMeasurement_of_some now p s o hf]
    obtain ⟨h1, h2, h3⟩ := h
    have hbeq : (o.id == p.id) = true :=
      @List.find?_some Order (fun x => x.id == p.id) o s.activeOrders hf
    have hoid : o.id = p.id := beq_iff_eq.1 hbeq
    have homem : o ∈ s.activeOrders := List.mem_of_find?_eq_some hf
    have hpact : p.id ∈ activeIds s := List.mem_map.2 ⟨o, homem, hoid⟩
    have hparch : p.id ∉ archIds s := h3 _ hpact
    have hcid : (completeOrder now p s o).id = p.id := hoid
    refine ⟨?_, ?_, ?_⟩
    · show ((s.activeOrders.eraseP (fun x => x.id == p.id)).map (fun o => o.id)).Nodup
      rw [map_id_eraseP]
      exact List.Nodup.sublist (List.eraseP_sublist _) h1
    · show ((completeOrder now p s o :: s.archivedOrders).map (fun o => o.id)).Nodup
      rw [List.map_cons]
      exact List.nodup_cons.2 ⟨hcid ▸ hparch, h2⟩
    · intro i hi
      have h0 : i ∈ ((s.activeOrders.eraseP (fun x => x.id == p.id)).map (fun o => o.id)) := hi
      rw [map_id_eraseP] at h0
      have hiact : i ∈ activeIds s := (List.eraseP_sublist _).subset h0
      have hine : i ≠ p.id := by
        intro heq
        exact not_mem_eraseP_beq_of_nodup _ _ h1 (heq ▸ h0)
      intro hmem
      have hm0 : i ∈ ((completeOrder now p s o :: s.archivedOrders).map (fun o => o.id)) := hmem
      rw [List.map_cons] at hm0
      rcases List.mem_cons.1 hm0 with heq | h4
      · exact hine (heq.trans hcid)
      · exact h3 i hiact h4

theorem stateInv_step (op : Op) (s : ServerState) (h : StateInv s) :
    StateInv (step op s) := by
  cases op with
  | create now p => exact stateInv_create now p s h
  | submit now p => exact stateInv_submit now p s h

theorem stateInv_run (ops : List Op) (s : ServerState) (h : StateInv s) :
    StateInv (run ops s) := by
  induction ops generalizing s with
  | nil => exact h
  | cons op rest ih =>
    show StateInv (run rest (step op s))
    exact ih (step op s) (stateInv_step op s h)

theorem idIn_step_mono (op : Op) (s : ServerState) (i : String) (h : idIn s i) :
    idIn (step op s) i := by
  cases op with
  | create now p =>
    show idIn (createOrder now p s) i
    by_cases hmem : (ensureId now p).id ∈ activeIds s ∨ (ensureId now p).id ∈ archIds s
    · rw [createOrder_of_mem now p s hmem]
      exact h
    · push_neg at hmem
      rw [createOrder_of_not_mem now p s hmem.1 hmem.2]
      rcases h with h | h
      · left
        show i ∈ ((ensureId now p :: s.activeOrders).map (fun o => o.id))
        rw [List.map_cons]
        exact List.mem_cons.2 (Or.inr h)
      · right
        exact h
  | submit now p =>
    show idIn (submitMeasurement now p s) i
    cases hf : s.activeOrders.find? (fun x => x.id == p.id) with
    | none =>
      rw [submitMeasurement_of_none now p s hf]
      exact h
    | some o =>
      rw [submitMeasurement_of_some now p s o hf]
      have hbeq : (o.id == p.id) = true :=
      @List.find?_some Order (fun x => x.id == p.id) o s.activeOrders hf
      have hcid : (completeOrder now p s o).id = p.id := beq_iff_eq.1 hbeq
      rcases h with h | h
      · by_cases hip : i = p.id
        · right
          show i ∈ ((completeOrder now p s o :: s.archivedOrders).map (fun o => o.id))
          rw [List.map_cons, hcid, hip]
          exact List.mem_cons_self _ _
        · left
          show i ∈ ((s.activeOrders.eraseP (fun x => x.id == p.id)).map (fun o => o.id))
          rw [map_id_eraseP]
          exact mem_eraseP_beq_of_ne _ _ _ hip h
      · right
        show i ∈ ((completeOrder now p s o :: s.archivedOrders).map (fun o => o.id))
        rw [List.map_cons]
        exact List.mem_cons.2 (Or.inr h)

theorem idIn_run_mono (ops : List Op) (s : ServerState) (i : String) (h : idIn s i) :
    idIn (run ops s) i := by
  induction ops generalizing s with
  | nil => exact h
  | cons op rest ih =>
    show idIn (run rest (step op s)) i
    exact ih (step op s) (idIn_step_mono op s i h)

theorem created_idIn (ops : List Op) (s : ServerState) :
    ∀ i ∈ createdIds ops, idIn (run ops s) i := by
  induction ops generalizing s with
  | nil => intro i hi; cases hi
  | cons op rest ih =>
    intro i hi
    cases op with
    | create now p =>
      have hi' : i ∈ ensuredId now p :: createdIds rest := hi
      rcases List.mem_cons.1 hi' with heq | h2
      · show idIn (run rest (step (Op.create now p) s)) i
        apply idIn_run_mono
        show idIn (createOrder now p s) i
        by_cases hmem : (ensureId now p).id ∈ activeIds s ∨ (ensureId now p).id ∈ archIds s
        · rw [createOrder_of_mem now p s hmem]
          exact heq ▸ hmem
        · push_neg at hmem
          rw [createOrder_of_not_mem now p s hmem.1 hmem.2]
          left
          show i ∈ ((ensureId now p :: s.activeOrders).map (fun o => o.id))
          rw [List.map_cons, heq]
          exact List.mem_cons_self _ _
      · exact ih (step (Op.create now p) s) i h2
    | submit now p =>
      exact ih (step (Op.submit now p) s) i hi

/-- C1: starting from any reconciled state and running any sequence of
create_order and submit_measurement events, no id is ever in both the active
and the archived partition, and every ensured id of a create event of the
trace ends up in exactly one of the two partitions. -/
theorem spec_c1_partition_invariant (raw : RawState) (ops : List Op) :
    (∀ i ∈ activeIds (run ops (reconcile raw).1),
      i ∉ archIds (run ops (reconcile raw).1)) ∧
    (∀ i ∈ createdIds ops,
      Xor' (i ∈ activeIds (run ops (reconcile raw).1))
        (i ∈ archIds (run ops (reconcile raw).1))) := by
  have hinv := stateInv_run ops (reconcile raw).1 (reconcile_StateInv raw)
  refine ⟨hinv.2.2, ?_⟩
  intro i hi
  rcases created_idIn ops (reconcile raw).1 i hi with h | h
  · exact Or.inl ⟨h, hinv.2.2 i h⟩
  · exact Or.inr ⟨h, fun hact => hinv.2.2 i hact h⟩

theorem spec_c1_partition_invariant_witness :
    "A" ∈ createdIds [Op.create 1 payloadA] ∧
    Xor' ("A" ∈ activeIds (run [Op.create 1 payloadA] (reconcile rawSpecExample).1))
      ("A" ∈ archIds (run [Op.create 1 payloadA] (reconcile rawSpecExample).1)) :=
  ⟨by decide,
    (spec_c1_partition_invariant rawSpecExample [Op.create 1 payloadA]).2 "A" (by decide)⟩
